import Mathlib

/-!
Verification of the gotool `http` package (`src/http/http.go`).

The development shallowly embeds the package's functions
(`resolveUrlWithParameter`, `doParseResponse`, `mapHeader2netHeader`,
`send`, `do`, and the public `Get`/`Post`/`Put`/`Patch`/`Delete` entry
points) together with models of the parts of the Go standard library the
package calls: `net/url` (URL parsing, query handling, RFC 3986 percent
encoding) and `net/textproto` (canonical MIME header keys).

Go byte strings are modeled as Lean `String`s (one `Char` per byte for the
ASCII inputs that the package's contracts exercise), Go `nil`-able values
as `Option`, Go errors as `Option String` carrying the error message, and
the process-wide hook registry and shared transport client as an explicit
environment value threaded through the dispatch pipeline.  Hook, transport
and response-parser invocations are recorded in an event trace so that
claims about which collaborators run (and in which order) are provable.
-/

namespace NetUrl

/-- ASCII lower-casing of a single character (model of Go byte lowering in
`strings.ToLower` as used on URL schemes, which are ASCII). -/
def asciiLower (c : Char) : Char :=
  if 'A' ≤ c ∧ c ≤ 'Z' then Char.ofNat (c.toNat + 32) else c

/-- ASCII upper-casing of a single character. -/
def asciiUpper (c : Char) : Char :=
  if 'a' ≤ c ∧ c ≤ 'z' then Char.ofNat (c.toNat - 32) else c

/-- Model of Go `net/url.stringContainsCTLByte`'s per-byte test:
a control byte is one below 0x20 or equal to 0x7f. -/
def isCTL (c : Char) : Bool :=
  decide (c.toNat < 0x20 ∨ c.toNat = 0x7f)

/-- Model of Go `net/url.ishex`. -/
def ishex (c : Char) : Bool :=
  decide (('0' ≤ c ∧ c ≤ '9') ∨ ('a' ≤ c ∧ c ≤ 'f') ∨ ('A' ≤ c ∧ c ≤ 'F'))

/-- Model of Go `net/url.unhex`. -/
def unhex (c : Char) : Nat :=
  if '0' ≤ c ∧ c ≤ '9' then c.toNat - '0'.toNat
  else if 'a' ≤ c ∧ c ≤ 'f' then c.toNat - 'a'.toNat + 10
  else if 'A' ≤ c ∧ c ≤ 'F' then c.toNat - 'A'.toNat + 10
  else 0

/-- Upper-case hexadecimal digit, as used by Go's percent-encoder
(`upperhex = "0123456789ABCDEF"`). -/
def upperhexDigit (n : Nat) : Char :=
  if n < 10 then Char.ofNat ('0'.toNat + n) else Char.ofNat ('A'.toNat + n - 10)

/-- UTF-8 encoding of a character as a byte list; Go strings are byte
strings and the percent-encoder escapes individual bytes. -/
def utf8Bytes (c : Char) : List Nat :=
  let n := c.toNat
  if n < 0x80 then [n]
  else if n < 0x800 then [0xC0 + n / 64, 0x80 + n % 64]
  else if n < 0x10000 then [0xE0 + n / 4096, 0x80 + (n / 64) % 64, 0x80 + n % 64]
  else [0xF0 + n / 262144, 0x80 + (n / 4096) % 64, 0x80 + (n / 64) % 64, 0x80 + n % 64]

/-- A percent escape `%XY` for one byte, upper-case hex as in Go. -/
def pctEncodeByte (b : Nat) : List Char :=
  ['%', upperhexDigit (b / 16), upperhexDigit (b % 16)]

/-- The encoding contexts of Go `net/url` (the `encoding` enum); the zone
mode is omitted because nothing in this repository can reach it. -/
inductive EncMode where
  | host
  | userPassword
  | path
  | pathSegment
  | queryComponent
  | fragment
deriving DecidableEq

/-- Model of Go `net/url.shouldEscape`: whether a byte must be
percent-encoded in the given context, per RFC 3986. -/
def shouldEscape (c : Char) (mode : EncMode) : Bool :=
  if ('a' ≤ c ∧ c ≤ 'z') ∨ ('A' ≤ c ∧ c ≤ 'Z') ∨ ('0' ≤ c ∧ c ≤ '9') then false
  else if mode = EncMode.host ∧
      ['!', '$', '&', '\x27', '(', ')', '*', '+', ',', ';', '=', ':',
        '[', ']', '<', '>', '"'].contains c then false
  else if ['-', '_', '.', '~'].contains c then false
  else if ['$', '&', '+', ',', '/', ':', ';', '=', '?', '@'].contains c then
    match mode with
    | EncMode.path => c == '?'
    | EncMode.pathSegment => c == '/' || c == ';' || c == ',' || c == '?'
    | EncMode.userPassword => c == '@' || c == '/' || c == '?' || c == ':'
    | EncMode.queryComponent => true
    | EncMode.fragment => false
    | EncMode.host => true
  else if mode = EncMode.fragment ∧ ['!', '(', ')', '*'].contains c then false
  else true

/-- Model of Go `net/url.escape`: percent-encode a string for the given
context; in the query context a space becomes `+`. -/
def escapeChars (mode : EncMode) : List Char → List Char
  | [] => []
  | c :: cs =>
    if c = ' ' ∧ mode = EncMode.queryComponent then '+' :: escapeChars mode cs
    else if shouldEscape c mode then
      (utf8Bytes c).foldr (fun b acc => pctEncodeByte b ++ acc) (escapeChars mode cs)
    else c :: escapeChars mode cs

/-- Simplified model of Go `strconv.Quote` as used in `net/url` error
messages: the argument is wrapped in double quotes (the inputs quoted by
the claims contain no characters that `Quote` would escape). -/
def goQuote (s : String) : String := "\"" ++ s ++ "\""

/-- Model of Go `net/url.unescape`: percent-decode a string, validating
escapes; in the query context `+` decodes to a space, and in the host
context unescaped bytes that require escaping, or `%XY` escapes of ASCII
bytes other than `%25`, are rejected. -/
def unescapeChars (mode : EncMode) : List Char → Except String (List Char)
  | [] => .ok []
  | '%' :: rest =>
    match rest with
    | a :: b :: rest2 =>
      if ishex a ∧ ishex b then
        if mode = EncMode.host ∧ unhex a < 8 ∧ ¬(a = '2' ∧ b = '5') then
          .error ("invalid URL escape " ++ goQuote (String.mk ['%', a, b]))
        else
          match unescapeChars mode rest2 with
          | .error e => .error e
          | .ok out => .ok (Char.ofNat (16 * unhex a + unhex b) :: out)
      else .error ("invalid URL escape " ++ goQuote (String.mk ['%', a, b]))
    | _ => .error ("invalid URL escape " ++ goQuote (String.mk ('%' :: rest)))
  | '+' :: rest =>
    match unescapeChars mode rest with
    | .error e => .error e
    | .ok out => .ok ((if mode = EncMode.queryComponent then ' ' else '+') :: out)
  | c :: rest =>
    if mode = EncMode.host ∧ c.toNat < 0x80 ∧ shouldEscape c mode then
      .error ("invalid character " ++ goQuote (String.mk [c]) ++ " in host name")
    else
      match unescapeChars mode rest with
      | .error e => .error e
      | .ok out => .ok (c :: out)

/-- Model of Go `net/url.validEncoded`: whether a string is a valid
already-encoded form for the given context. -/
def validEncodedL (mode : EncMode) : List Char → Bool
  | [] => true
  | c :: cs =>
    (if ['!', '$', '&', '\x27', '(', ')', '*', '+', ',', ';', '=', ':', '@',
          '[', ']', '%'].contains c then true
     else !shouldEscape c mode)
    && validEncodedL mode cs

/-- Model of Go `net/url.QueryEscape`. -/
def queryEscape (s : String) : String :=
  String.mk (escapeChars EncMode.queryComponent s.data)

/-- Model of Go `net/url.QueryUnescape`. -/
def queryUnescape (s : String) : Except String String :=
  match unescapeChars EncMode.queryComponent s.data with
  | .error e => .error e
  | .ok cs => .ok (String.mk cs)

/-- Cut a character list at the first occurrence of `sep` (model of Go
`strings.Cut` / `net/url.split` with `cutc = true`); `none` when `sep`
does not occur. -/
def cutList (sep : Char) : List Char → Option (List Char × List Char)
  | [] => none
  | c :: rest =>
    if c = sep then some ([], rest)
    else match cutList sep rest with
      | some (a, b) => some (c :: a, b)
      | none => none

/-- Cut a character list at the last occurrence of `sep` (model of Go
`strings.LastIndex` followed by slicing). -/
def lastCut (sep : Char) : List Char → Option (List Char × List Char)
  | [] => none
  | c :: rest =>
    match lastCut sep rest with
    | some (a, b) => some (c :: a, b)
    | none => if c = sep then some ([], rest) else none

/-- The part of a string before the first occurrence of `sep` (the whole
string when `sep` is absent), as in `segment, _, _ := strings.Cut(...)`. -/
def cutSeg (sep : Char) (s : String) : String :=
  match cutList sep s.data with
  | some (a, _) => String.mk a
  | none => s

/-- Whether `p` is a prefix of `s` (model of Go `strings.HasPrefix`,
written structurally so that it evaluates by reduction). -/
def startsWithL : List Char → List Char → Bool
  | [], _ => true
  | _ :: _, [] => false
  | p :: ps, c :: cs => p == c && startsWithL ps cs

/-- Split a character list at every occurrence of `sep` (model of Go
`strings.Split` / Lean `String.splitOn` for a one-character separator). -/
def splitSep (sep : Char) : List Char → List (List Char)
  | [] => [[]]
  | c :: rest =>
    if c = sep then [] :: splitSep sep rest
    else
      match splitSep sep rest with
      | a :: as => (c :: a) :: as
      | [] => [[c]]

/-- Join strings with a separator (model of `strings.Join`). -/
def joinSep (sep : String) : List String → String
  | [] => ""
  | [a] => a
  | a :: as => a ++ sep ++ joinSep sep as

/-- Model of Go `net/url.Values`: a string-keyed map to lists of strings,
represented as an association list with distinct keys. -/
abbrev Values := List (String × List String)

/-- Keys of a `Values` map, in representation order. -/
def Values.keys (q : Values) : List String := q.map Prod.fst

/-- Model of `url.Values.Get`-like lookup returning the whole value slice
(Go indexing `v[key]`, which yields `nil` for an absent key). -/
def Values.get : Values → String → List String
  | [], _ => []
  | (k, vs) :: rest, key => if k = key then vs else Values.get rest key

/-- Model of `url.Values.Add`: append `value` to the slice stored under
`key` (used by the query parser). -/
def Values.add : Values → String → String → Values
  | [], key, value => [(key, [value])]
  | (k, vs) :: rest, key, value =>
    if k = key then (k, vs ++ [value]) :: rest
    else (k, vs) :: Values.add rest key value

/-- Model of `url.Values.Set`: replace the slice stored under `key` with
the one-element slice `[value]`. -/
def Values.set : Values → String → String → Values
  | [], key, value => [(key, [value])]
  | (k, vs) :: rest, key, value =>
    if k = key then (key, [value]) :: rest
    else (k, vs) :: Values.set rest key value

/-- One iteration of Go `net/url.parseQuery`'s loop body on a single
`&`-separated chunk: chunks containing `;` or empty chunks are skipped, the
chunk is cut at the first `=`, and both halves are query-unescaped, a
failure of either skipping the pair (the error is recorded but `URL.Query`
discards it). -/
def parseQueryChunk (m : Values) (chunk : String) : Values :=
  if chunk.data.contains ';' then m
  else if chunk = "" then m
  else
    let (k, v) :=
      match cutList '=' chunk.data with
      | some (a, b) => (String.mk a, String.mk b)
      | none => (chunk, "")
    match queryUnescape k with
    | .error _ => m
    | .ok k2 =>
      match queryUnescape v with
      | .error _ => m
      | .ok v2 => Values.add m k2 v2

/-- Fold of `parseQueryChunk` over the chunks of a query string. -/
def parseQueryList (m : Values) : List String → Values
  | [] => m
  | c :: cs => parseQueryList (parseQueryChunk m c) cs

/-- Model of Go `net/url.ParseQuery` with the error discarded, as done by
`URL.Query()`. -/
def parseQueryValues (query : String) : Values :=
  parseQueryList [] ((splitSep '&' query.data).map String.mk)

/-- Byte-wise strict ordering on strings, as used by Go `slices.Sort` on
query keys (codepoint order coincides with UTF-8 byte order). -/
def charListLt : List Char → List Char → Bool
  | [], [] => false
  | [], _ :: _ => true
  | _ :: _, [] => false
  | a :: as, b :: bs => if a < b then true else if b < a then false else charListLt as bs

/-- Strict string ordering lifted from `charListLt`. -/
def strLtB (a b : String) : Bool := charListLt a.data b.data

/-- Insert a string into a sorted list of strings. -/
def insertSorted (a : String) : List String → List String
  | [] => [a]
  | b :: bs => if strLtB b a then b :: insertSorted a bs else a :: b :: bs

/-- Sort a list of strings (model of the `slices.Sort` call inside
`url.Values.Encode`; the keys sorted are distinct, so any sort agrees). -/
def sortStrings : List String → List String
  | [] => []
  | a :: as => insertSorted a (sortStrings as)

/-- The `(key, value)` pairs emitted by `url.Values.Encode`, in emission
order: keys sorted, each key repeated once per stored value. -/
def Values.encodePairs (q : Values) : List (String × String) :=
  (sortStrings q.keys).flatMap fun k => (q.get k).map fun v => (k, v)

/-- Model of Go `url.Values.Encode`: the percent-encoded
`key=value&key=value` form of the map, keys in sorted order. -/
def Values.encode (q : Values) : String :=
  joinSep "&"
    (q.encodePairs.map fun kv => queryEscape kv.1 ++ "=" ++ queryEscape kv.2)

/-- Model of Go `net/url.Userinfo` (username with an optional password). -/
structure Userinfo where
  username : String
  password : Option String
deriving DecidableEq

/-- Serialization of userinfo as in `Userinfo.String`. -/
def Userinfo.string (u : Userinfo) : String :=
  String.mk (escapeChars EncMode.userPassword u.username.data) ++
    match u.password with
    | some p => ":" ++ String.mk (escapeChars EncMode.userPassword p.data)
    | none => ""

/-- Model of Go `net/url.URL` (the `Opaque` field is named `opaq` here;
the IPv6 zone handling of hosts is not modeled because nothing in this
repository can produce a zone). -/
structure GoURL where
  scheme : String := ""
  opaq : String := ""
  user : Option Userinfo := none
  host : String := ""
  path : String := ""
  rawPath : String := ""
  omitHost : Bool := false
  forceQuery : Bool := false
  rawQuery : String := ""
  fragment : String := ""
  rawFragment : String := ""
deriving DecidableEq

/-- Model of Go `net/url.getScheme`: split a raw URL into scheme and
remainder.  `go` carries the reversed prefix read so far; a non-scheme
character (or end of input) before any `:` means the URL has no scheme. -/
def getSchemeGo (orig : String) : List Char → List Char → Except String (String × String)
  | _, [] => .ok ("", orig)
  | acc, c :: rest =>
    if ('a' ≤ c ∧ c ≤ 'z') ∨ ('A' ≤ c ∧ c ≤ 'Z') then
      getSchemeGo orig (c :: acc) rest
    else if ('0' ≤ c ∧ c ≤ '9') ∨ c = '+' ∨ c = '-' ∨ c = '.' then
      if acc = [] then .ok ("", orig) else getSchemeGo orig (c :: acc) rest
    else if c = ':' then
      if acc = [] then .error "missing protocol scheme"
      else .ok (String.mk acc.reverse, String.mk rest)
    else .ok ("", orig)

/-- Entry point of the `getScheme` model. -/
def getScheme (rawURL : String) : Except String (String × String) :=
  getSchemeGo rawURL [] rawURL.data

/-- Model of Go `net/url.validOptionalPort`: empty, or `:` followed by
decimal digits. -/
def validOptionalPortL : List Char → Bool
  | [] => true
  | ':' :: rest => rest.all fun c => decide ('0' ≤ c ∧ c ≤ '9')
  | _ => false

/-- Model of Go `net/url.parseHost` (bracketed IPv6 hosts are validated
for the closing bracket and port but zone identifiers are not split out,
which nothing in this repository exercises). -/
def parseHost (host : String) : Except String String :=
  let cs := host.data
  let unesc : Except String String :=
    match unescapeChars EncMode.host cs with
    | .error e => .error e
    | .ok out => .ok (String.mk out)
  match cs with
  | '[' :: _ =>
    match lastCut ']' cs with
    | none => .error "missing \x27]\x27 in host"
    | some (_, after) =>
      if validOptionalPortL after then unesc
      else .error ("invalid port " ++ goQuote (String.mk after) ++ " after host")
  | _ =>
    match lastCut ':' cs with
    | some (_, after) =>
      if validOptionalPortL (':' :: after) then unesc
      else .error ("invalid port " ++ goQuote (String.mk (':' :: after)) ++ " after host")
    | none => unesc

/-- Model of Go `net/url.validUserinfo`. -/
def validUserinfoL : List Char → Bool
  | [] => true
  | c :: cs =>
    (decide (('a' ≤ c ∧ c ≤ 'z') ∨ ('A' ≤ c ∧ c ≤ 'Z') ∨ ('0' ≤ c ∧ c ≤ '9')) ||
      ['-', '.', '_', ':', '~', '!', '$', '&', '\x27', '(', ')', '*', '+',
        ',', ';', '=', '%', '@'].contains c)
    && validUserinfoL cs

/-- Model of Go `net/url.parseAuthority`: split the userinfo (at the last
`@`) from the host, validating both. -/
def parseAuthority (authority : String) : Except String (Option Userinfo × String) :=
  match lastCut '@' authority.data with
  | none =>
    match parseHost authority with
    | .error e => .error e
    | .ok h => .ok (none, h)
  | some (userinfo, hostPart) =>
    match parseHost (String.mk hostPart) with
    | .error e => .error e
    | .ok host =>
      if !validUserinfoL userinfo then .error "net/url: invalid userinfo"
      else
        match cutList ':' userinfo with
        | none =>
          match unescapeChars EncMode.userPassword userinfo with
          | .error e => .error e
          | .ok u => .ok (some ⟨String.mk u, none⟩, host)
        | some (uname, pass) =>
          match unescapeChars EncMode.userPassword uname with
          | .error e => .error e
          | .ok u =>
            match unescapeChars EncMode.userPassword pass with
            | .error e => .error e
            | .ok p => .ok (some ⟨String.mk u, some (String.mk p)⟩, host)

/-- Model of Go `URL.setPath`: store the decoded path, keeping the raw
form only when it differs from the canonical re-encoding.  Returns
`(Path, RawPath)`. -/
def setPathParts (p : String) : Except String (String × String) :=
  match unescapeChars EncMode.path p.data with
  | .error e => .error e
  | .ok path =>
    if p = String.mk (escapeChars EncMode.path path) then .ok (String.mk path, "")
    else .ok (String.mk path, p)

/-- Model of Go `URL.setFragment`, analogous to `setPath`.  Returns
`(Fragment, RawFragment)`. -/
def setFragmentParts (f : String) : Except String (String × String) :=
  match unescapeChars EncMode.fragment f.data with
  | .error e => .error e
  | .ok frag =>
    if f = String.mk (escapeChars EncMode.fragment frag) then .ok (String.mk frag, "")
    else .ok (String.mk frag, f)

/-- Model of Go `URL.EscapedPath`. -/
def GoURL.escapedPath (u : GoURL) : String :=
  if u.rawPath ≠ "" ∧ validEncodedL EncMode.path u.rawPath.data then
    match unescapeChars EncMode.path u.rawPath.data with
    | .ok p =>
      if String.mk p = u.path then u.rawPath
      else String.mk (escapeChars EncMode.path u.path.data)
    | .error _ => String.mk (escapeChars EncMode.path u.path.data)
  else String.mk (escapeChars EncMode.path u.path.data)

/-- Model of Go `URL.EscapedFragment`. -/
def GoURL.escapedFragment (u : GoURL) : String :=
  if u.rawFragment ≠ "" ∧ validEncodedL EncMode.fragment u.rawFragment.data then
    match unescapeChars EncMode.fragment u.rawFragment.data with
    | .ok f =>
      if String.mk f = u.fragment then u.rawFragment
      else String.mk (escapeChars EncMode.fragment u.fragment.data)
    | .error _ => String.mk (escapeChars EncMode.fragment u.fragment.data)
  else String.mk (escapeChars EncMode.fragment u.fragment.data)

/-- Continuation of the `parse` model after the scheme, query and opaque
handling: authority extraction and path assignment. -/
def parseRest (scheme rest rawQuery : String) (forceQuery : Bool) :
    Except String GoURL :=
  if (scheme ≠ "" ∨ ¬ startsWithL ['/', '/', '/'] rest.data) ∧
      startsWithL ['/', '/'] rest.data then
    let afterSlashes := rest.data.drop 2
    let (authority, rest2) :=
      match cutList '/' afterSlashes with
      | some (a, b) => (String.mk a, String.mk ('/' :: b))
      | none => (String.mk afterSlashes, "")
    match parseAuthority authority with
    | .error e => .error e
    | .ok (user, host) =>
      match setPathParts rest2 with
      | .error e => .error e
      | .ok (path, rawPath) =>
        .ok { scheme, user, host, path, rawPath, forceQuery, rawQuery }
  else if scheme ≠ "" ∧ startsWithL ['/'] rest.data then
    match setPathParts rest with
    | .error e => .error e
    | .ok (path, rawPath) =>
      .ok { scheme, path, rawPath, omitHost := true, forceQuery, rawQuery }
  else
    match setPathParts rest with
    | .error e => .error e
    | .ok (path, rawPath) =>
      .ok { scheme, path, rawPath, forceQuery, rawQuery }

/-- Model of Go `net/url.parse` with `viaRequest = false` (the variant
`url.Parse` uses): control-character check, `*` special case, scheme
extraction and lowering, query split (with the trailing-`?` `ForceQuery`
case), opaque URLs, the colon-in-first-segment check, then `parseRest`. -/
def parseInner (rawURL : String) : Except String GoURL :=
  if rawURL.data.any isCTL then
    .error "net/url: invalid control character in URL"
  else if rawURL = "*" then .ok { path := "*" }
  else
    match getScheme rawURL with
    | .error e => .error e
    | .ok (scheme0, rest0) =>
      let scheme := String.mk (scheme0.data.map asciiLower)
      let (rest1, rawQuery, forceQuery) :=
        if rest0.data.getLast? = some '?' ∧ ¬ rest0.data.dropLast.contains '?' then
          (String.mk rest0.data.dropLast, "", true)
        else
          match cutList '?' rest0.data with
          | some (a, b) => (String.mk a, String.mk b, false)
          | none => (rest0, "", false)
      if ¬ startsWithL ['/'] rest1.data then
        if scheme ≠ "" then .ok { scheme, opaq := rest1, forceQuery, rawQuery }
        else if (cutSeg '/' rest1).data.contains ':' then
          .error "first path segment in URL cannot contain colon"
        else parseRest scheme rest1 rawQuery forceQuery
      else parseRest scheme rest1 rawQuery forceQuery

/-- Model of Go `net/url.Parse`: strip the fragment, run `parseInner`,
then attach the decoded fragment; errors are wrapped with the operation
and the URL as `url.Error` does. -/
def parse (rawURL : String) : Except String GoURL :=
  let (u, frag) :=
    match cutList '#' rawURL.data with
    | some (a, b) => (String.mk a, String.mk b)
    | none => (rawURL, "")
  match parseInner u with
  | .error e => .error ("parse " ++ goQuote u ++ ": " ++ e)
  | .ok url =>
    if frag = "" then .ok url
    else
      match setFragmentParts frag with
      | .error e => .error ("parse " ++ goQuote rawURL ++ ": " ++ e)
      | .ok (f, rf) => .ok { url with fragment := f, rawFragment := rf }

/-- Model of Go `URL.Query()`: parse the stored raw query, discarding any
parse error. -/
def GoURL.query (u : GoURL) : Values := parseQueryValues u.rawQuery

/-- Model of Go `URL.String()`: re-serialize the URL. -/
def GoURL.string (u : GoURL) : String :=
  let b0 := if u.scheme ≠ "" then u.scheme ++ ":" else ""
  let b2 :=
    if u.opaq ≠ "" then b0 ++ u.opaq
    else
      let b1 :=
        if u.scheme ≠ "" ∨ u.host ≠ "" ∨ u.user.isSome then
          if u.omitHost ∧ u.host = "" ∧ u.user.isNone then b0
          else
            let ba := if u.host ≠ "" ∨ u.path ≠ "" ∨ u.user.isSome then b0 ++ "//" else b0
            let bb :=
              match u.user with
              | some ui => ba ++ ui.string ++ "@"
              | none => ba
            if u.host ≠ "" then bb ++ String.mk (escapeChars EncMode.host u.host.data)
            else bb
        else b0
      let path := u.escapedPath
      let b1 := if path ≠ "" ∧ ¬ startsWithL ['/'] path.data ∧ u.host ≠ "" then b1 ++ "/"
        else b1
      let b1 :=
        if b1 = "" then (if (cutSeg '/' path).data.contains ':' then b1 ++ "./" else b1)
        else b1
      b1 ++ path
  let b3 := if u.forceQuery ∨ u.rawQuery ≠ "" then b2 ++ "?" ++ u.rawQuery else b2
  if u.fragment ≠ "" then b3 ++ "#" ++ u.escapedFragment else b3

end NetUrl

namespace GoHttp

open NetUrl

/-- Go errors are modeled by their message; a `nil` error is `none`. -/
abbrev Error := String

/-- Model of Go `http.Header` (`map[string][]string`) as an association
list; a `nil` header map is `Option.none` at use sites. -/
abbrev Header := List (String × List String)

/-- Model of Go `context.Context` as the per-call key-value carrier the
spec describes; hooks may extend it and it is threaded through the call. -/
abbrev Ctx := List (String × String)

/-- Whether a character may appear in a MIME header field name (model of
Go `textproto.validHeaderFieldByte`; 96 is the backquote). -/
def validHeaderFieldChar (c : Char) : Bool :=
  decide (('a' ≤ c ∧ c ≤ 'z') ∨ ('A' ≤ c ∧ c ≤ 'Z') ∨ ('0' ≤ c ∧ c ≤ '9')) ||
    ['!', '#', '$', '%', '&', '\x27', '*', '+', '-', '.', '^', '_', '|', '~'].contains c ||
    c.toNat == 96

/-- Case normalization pass of `textproto.CanonicalMIMEHeaderKey`: upper
case at the start and after each `-`, lower case elsewhere. -/
def canonChars : List Char → Bool → List Char
  | [], _ => []
  | c :: cs, upper =>
    let c2 := if upper then asciiUpper c else asciiLower c
    c2 :: canonChars cs (c2 = '-')

/-- Model of Go `textproto.CanonicalMIMEHeaderKey`: keys containing an
invalid header character are returned unchanged, otherwise the canonical
capitalization is applied. -/
def canonicalMIMEHeaderKey (s : String) : String :=
  if s.data.all validHeaderFieldChar then String.mk (canonChars s.data true) else s

/-- Model of Go `http.Header.Set`: store the canonicalized key with the
one-element value slice, overwriting any previous entry. -/
def Header.set : Header → String → String → Header
  | [], key, value => [(canonicalMIMEHeaderKey key, [value])]
  | (k, vs) :: rest, key, value =>
    if k = canonicalMIMEHeaderKey key then (k, [value]) :: rest
    else (k, vs) :: Header.set rest key value

/-- Embedding of `mapHeader2netHeader` (src/http/http.go:207-215): convert
a string-to-string map into an `http.Header` via `Set`; a `nil` input map
yields the empty header.  The Go `map` iteration order is modeled by the
list order, which only affects the representation order of the
association list, not its map content. -/
def mapHeader2netHeader (header : Option (List (String × String))) : Header :=
  match header with
  | none => []
  | some h => h.foldl (fun nh kv => Header.set nh kv.1 kv.2) []

/-- Embedding of the `RequestMethodType` constants of src/http/http.go. -/
inductive RequestMethodType where
  | POST
  | GET
  | PATCH
  | PUT
  | DELETE
deriving DecidableEq

export RequestMethodType (POST GET PATCH PUT DELETE)

/-- The string value of a method constant. -/
def RequestMethodType.string : RequestMethodType → String
  | POST => "POST"
  | GET => "GET"
  | PATCH => "PATCH"
  | PUT => "PUT"
  | DELETE => "DELETE"

/-- Model of the Go `*http.Request` as built by `send`: method, resolved
URL, optional header map and optional body payload.  `body = none` models
a `nil` request body (Go `http.NewRequest(method, url, nil)`); `body =
some s` models `strings.NewReader(s)`, so `some ""` is an attached empty
payload. -/
structure Request where
  method : String
  url : String
  header : Option Header
  body : Option String
deriving DecidableEq

/-- Model of the relevant state of a Go `*http.Response`: status code,
headers, and the outcome of `io.ReadAll` on its body, which yields the
bytes read together with an optional read error. -/
structure Response where
  statusCode : Int
  header : Header
  bodyRead : String × Option Error

/-- The normalized `(int, http.Header, any, error)` result tuple of the
package's calls.  `header = none` and `body = none` model `nil`. -/
structure Result where
  code : Int
  header : Option Header
  body : Option String
  err : Option Error
deriving DecidableEq

/-- Embedding of the `Hook` interface (src/http/http.go:35-38): a
pre-dispatch and a post-dispatch callback. -/
structure Hook where
  before : Ctx → Request → Ctx × Option Error
  after : Ctx → Int → Option Header → Option String → Option Error → Ctx × Option Error

/-- The process-wide collaborators of a call: the registered hook list
(`globalHttpHook`) and the shared transport client (`httpClient.Do`),
which returns an optional response and an optional error. -/
structure Env where
  hooks : List Hook
  transport : Request → Option Response × Option Error

/-- Observable events of one dispatched call: which hook callbacks ran
(by registry index), whether and with which request the transport client
was invoked, and whether the response parser ran. -/
inductive Event where
  | beforeHook (i : Nat)
  | transportCall (req : Request)
  | parseResponse
  | afterHook (i : Nat)
deriving DecidableEq

/-- Output of running one hook chain: the final context, the aborting
error if any, and the hook events that occurred. -/
structure ChainOut where
  ctx : Ctx
  err : Option Error
  events : List Event

/-- Embedding of the Before-hook loop of `do` (src/http/http.go:138-144):
hooks run in registration order, each updating the context; the first
non-nil error stops the chain.  `i` is the registry index of the first
hook in the list. -/
def runBeforeAux : List Hook → Nat → Ctx → Request → ChainOut
  | [], _, ctx, _ => ⟨ctx, none, []⟩
  | h :: hs, i, ctx, req =>
    match h.before ctx req with
    | (ctx2, some e) => ⟨ctx2, some e, [.beforeHook i]⟩
    | (ctx2, none) =>
      let out := runBeforeAux hs (i + 1) ctx2 req
      ⟨out.ctx, out.err, .beforeHook i :: out.events⟩

/-- Embedding of the After-hook loop of `do` (src/http/http.go:150-156).
Because the loop body re-declares `err` with `:=`, every hook receives the
parser's error `er`, not the previous hook's; the first non-nil hook error
stops the chain. -/
def runAfterAux (code : Int) (hd : Option Header) (bd : Option String)
    (er : Option Error) : List Hook → Nat → Ctx → ChainOut
  | [], _, ctx => ⟨ctx, none, []⟩
  | h :: hs, i, ctx =>
    match h.after ctx code hd bd er with
    | (ctx2, some e) => ⟨ctx2, some e, [.afterHook i]⟩
    | (ctx2, none) =>
      let out := runAfterAux code hd bd er hs (i + 1) ctx2
      ⟨out.ctx, out.err, .afterHook i :: out.events⟩

/-- Embedding of `doParseResponse` (src/http/http.go:173-205): transport
error with no response gives `(-1, nil, nil, err)`; a nil response gives
`(-1, nil, nil, nil)`; a non-200 status reads and discards the body and
returns an error embedding the code and body text; a 200 status returns
the body bytes, or a wrapped error when reading them fails. -/
def doParseResponse (httpResponse : Option Response) (err : Option Error) : Result :=
  match httpResponse, err with
  | none, some e => ⟨-1, none, none, some e⟩
  | none, none => ⟨-1, none, none, none⟩
  | some resp, _ =>
    let code := resp.statusCode
    let headers := resp.header
    if code ≠ 200 then
      ⟨code, some headers, none,
        some ("remote error, url: code " ++ toString code ++ ", response body: " ++
          resp.bodyRead.1)⟩
    else
      match resp.bodyRead with
      | (_, some e) =>
        ⟨code, some headers, none, some ("Couldn\x27t parse response body, err: " ++ e)⟩
      | (body, none) => ⟨code, some headers, some body, none⟩

/-- Embedding of `do` (src/http/http.go:137-158): Before hooks, transport
call, response parsing, After hooks, with the early returns of the Go
code; paired with the event trace of the call. -/
def do_ (env : Env) (ctx : Ctx) (httpRequest : Request) : Result × List Event :=
  let bout := runBeforeAux env.hooks 0 ctx httpRequest
  match bout.err with
  | some e => (⟨-1, none, none, some e⟩, bout.events)
  | none =>
    match env.transport httpRequest with
    | (_, some e) => (⟨-1, none, none, some e⟩, bout.events ++ [.transportCall httpRequest])
    | (resp, none) =>
      let r := doParseResponse resp none
      let aout := runAfterAux r.code r.header r.body r.err env.hooks 0 bout.ctx
      match aout.err with
      | some e =>
        (⟨-1, none, none, some e⟩,
          bout.events ++ [.transportCall httpRequest, .parseResponse] ++ aout.events)
      | none =>
        (r, bout.events ++ [.transportCall httpRequest, .parseResponse] ++ aout.events)

/-- Embedding of `resolveUrlWithParameter` (src/http/http.go:160-171):
parse the URL, `Set` each parameter into its query values, re-encode the
query and re-serialize.  The Go `map` iteration is modeled by a list
fold; since `Set` on distinct keys commutes and `Encode` sorts keys, the
result does not depend on that order. -/
def resolveUrlWithParameter (urlString : String)
    (parameters : List (String × String)) : Except Error String :=
  match parse urlString with
  | .error e => .error e
  | .ok url =>
    let queryValue := parameters.foldl (fun q kv => q.set kv.1 kv.2) url.query
    .ok (GoURL.string { url with rawQuery := queryValue.encode })

/-- The opaque `any` request-body argument; `nil` models Go `nil`. -/
inductive AnyVal where
  | nil
  | val (n : Nat)
deriving DecidableEq

/-- Embedding of `send` (src/http/http.go:112-135).  `marshal` models the
external `json.Marshal` collaborator: it returns the serialized bytes and
an optional error, and the code discards the error (`bytes, _ :=
json.Marshal(body)`).  The `http.NewRequest` error branch (line 126-129)
is not reachable in this model: the method constants are valid tokens and
the URL is the serialization of a URL that `url.Parse` just accepted, so
`NewRequest` is modeled as total request construction.
`buildRequest` is the request-construction part of `send`
(src/http/http.go:118-133): POST/PUT/PATCH attach the marshalled body
(`bytes, _ := json.Marshal(body)` — the marshal error is discarded), other
methods attach no body, and the header map is converted and attached only
when non-nil. -/
def buildRequest (marshal : AnyVal → String × Option Error)
    (method : RequestMethodType) (url2 : String)
    (header : Option (List (String × String))) (body : AnyVal) : Request :=
  let httpRequest : Request :=
    if method = POST ∨ method = PUT ∨ method = PATCH then
      { method := method.string, url := url2, header := none,
        body := some (marshal body).1 }
    else
      { method := method.string, url := url2, header := none, body := none }
  match header with
  | some _ => { httpRequest with header := some (mapHeader2netHeader header) }
  | none => httpRequest

def send (env : Env) (marshal : AnyVal → String × Option Error) (ctx : Ctx)
    (method : RequestMethodType) (url : String)
    (header : Option (List (String × String)))
    (parameter : List (String × String)) (body : AnyVal) : Result × List Event :=
  match resolveUrlWithParameter url parameter with
  | .error e => (⟨0, none, none, some e⟩, [])
  | .ok url2 => do_ env ctx (buildRequest marshal method url2 header body)

/-- Model of Go `context.Background()`: the empty call context. -/
def background : Ctx := []

/-- Embedding of `GetWithContext` (src/http/http.go:75-78). -/
def GetWithContext (env : Env) (marshal : AnyVal → String × Option Error) (ctx : Ctx)
    (url : String) (header : Option (List (String × String)))
    (parameter : List (String × String)) : Result × List Event :=
  send env marshal ctx GET url header parameter AnyVal.nil

/-- Embedding of `Get` (src/http/http.go:71-73). -/
def Get (env : Env) (marshal : AnyVal → String × Option Error) (url : String)
    (header : Option (List (String × String)))
    (parameter : List (String × String)) : Result × List Event :=
  GetWithContext env marshal background url header parameter

/-- Embedding of `PostWithContext` (src/http/http.go:84-86). -/
def PostWithContext (env : Env) (marshal : AnyVal → String × Option Error) (ctx : Ctx)
    (url : String) (header : Option (List (String × String)))
    (parameter : List (String × String)) (body : AnyVal) : Result × List Event :=
  send env marshal ctx POST url header parameter body

/-- Embedding of `Post` (src/http/http.go:80-82). -/
def Post (env : Env) (marshal : AnyVal → String × Option Error) (url : String)
    (header : Option (List (String × String)))
    (parameter : List (String × String)) (body : AnyVal) : Result × List Event :=
  PostWithContext env marshal background url header parameter body

/-- Embedding of `PatchWithContext` (src/http/http.go:92-94). -/
def PatchWithContext (env : Env) (marshal : AnyVal → String × Option Error) (ctx : Ctx)
    (url : String) (header : Option (List (String × String)))
    (parameter : List (String × String)) (body : AnyVal) : Result × List Event :=
  send env marshal ctx PATCH url header parameter body

/-- Embedding of `Patch` (src/http/http.go:88-90). -/
def Patch (env : Env) (marshal : AnyVal → String × Option Error) (url : String)
    (header : Option (List (String × String)))
    (parameter : List (String × String)) (body : AnyVal) : Result × List Event :=
  PatchWithContext env marshal background url header parameter body

/-- Embedding of `PutWithContext` (src/http/http.go:100-102). -/
def PutWithContext (env : Env) (marshal : AnyVal → String × Option Error) (ctx : Ctx)
    (url : String) (header : Option (List (String × String)))
    (parameter : List (String × String)) (body : AnyVal) : Result × List Event :=
  send env marshal ctx PUT url header parameter body

/-- Embedding of `Put` (src/http/http.go:96-98). -/
def Put (env : Env) (marshal : AnyVal → String × Option Error) (url : String)
    (header : Option (List (String × String)))
    (parameter : List (String × String)) (body : AnyVal) : Result × List Event :=
  PutWithContext env marshal background url header parameter body

/-- Embedding of `DeleteWithContext` (src/http/http.go:108-110). -/
def DeleteWithContext (env : Env) (marshal : AnyVal → String × Option Error) (ctx : Ctx)
    (url : String) (header : Option (List (String × String)))
    (parameter : List (String × String)) (body : AnyVal) : Result × List Event :=
  send env marshal ctx DELETE url header parameter body

/-- Embedding of `Delete` (src/http/http.go:104-106), which passes a `nil`
body to `DeleteWithContext`. -/
def Delete (env : Env) (marshal : AnyVal → String × Option Error) (url : String)
    (header : Option (List (String × String)))
    (parameter : List (String × String)) : Result × List Event :=
  DeleteWithContext env marshal background url header parameter AnyVal.nil

/-- The requests with which the transport client was invoked during a
call, read off the event trace. -/
def transportRequests (evs : List Event) : List Request :=
  evs.filterMap fun e =>
    match e with
    | .transportCall r => some r
    | _ => none

/-- The registry indices of the After hooks that ran, read off the event
trace. -/
def afterHookIdxs (evs : List Event) : List Nat :=
  evs.filterMap fun e =>
    match e with
    | .afterHook i => some i
    | _ => none

/-- Whether the response parser ran, read off the event trace. -/
def hasParseEvent (evs : List Event) : Bool :=
  evs.any fun e =>
    match e with
    | .parseResponse => true
    | _ => false

/-- A hook whose callbacks succeed without touching anything (like the
`TimeHook` test fixture's happy path). -/
def trivHook : Hook := ⟨fun c _ => (c, none), fun c _ _ _ _ => (c, none)⟩

/-- A hook whose Before callback aborts the call. -/
def failBeforeHook : Hook :=
  ⟨fun c _ => (c, some "before-failure"), fun c _ _ _ _ => (c, none)⟩

/-- A hook whose After callback aborts the call. -/
def failAfterHook : Hook :=
  ⟨fun c _ => (c, none), fun c _ _ _ _ => (c, some "after-failure")⟩

/-- A concrete request used to instantiate the dispatch theorems. -/
def exReq : Request := ⟨"GET", "http://h:8080", none, none⟩

/-- A concrete 200 response with a readable body. -/
def resp200 : Response := ⟨200, [("Content-Type", ["text/plain"])], ("BODY", none)⟩

/-- A concrete 404 response with body text `not found`. -/
def resp404 : Response := ⟨404, [("Content-Type", ["text/plain"])], ("not found", none)⟩

/-- A transport stub that fails like a refused connection. -/
def failTransport : Request → Option Response × Option Error :=
  fun _ => (none, some "connection refused")

/-- A transport stub that returns `resp200`. -/
def okTransport : Request → Option Response × Option Error :=
  fun _ => (some resp200, none)

/-- Environment: one well-behaved hook, failing transport. -/
def exEnvTransportFail : Env := ⟨[trivHook], failTransport⟩

/-- Environment: one aborting Before hook, failing transport. -/
def exEnvBeforeFail : Env := ⟨[failBeforeHook], failTransport⟩

/-- Environment: one aborting After hook, successful transport. -/
def exEnvAfterFail : Env := ⟨[failAfterHook], okTransport⟩

/-- Environment: no hooks, successful transport. -/
def exEnvOk : Env := ⟨[], okTransport⟩

/-- A marshal stub behaving like `json.Marshal` on `nil`. -/
def exMarshalNull : AnyVal → String × Option Error := fun _ => ("null", none)

/-- A marshal stub behaving like a failing `json.Marshal`, which returns
nil bytes together with the error. -/
def exMarshalFail : AnyVal → String × Option Error :=
  fun _ => ("", some "json: unsupported type")

/-- A marshal stub returning empty bytes without error. -/
def exMarshalEmpty : AnyVal → String × Option Error := fun _ => ("", none)

theorem transportRequests_append (a b : List Event) :
    transportRequests (a ++ b) = transportRequests a ++ transportRequests b := by
  simp [transportRequests]

theorem afterHookIdxs_append (a b : List Event) :
    afterHookIdxs (a ++ b) = afterHookIdxs a ++ afterHookIdxs b := by
  simp [afterHookIdxs]

theorem hasParseEvent_append (a b : List Event) :
    hasParseEvent (a ++ b) = (hasParseEvent a || hasParseEvent b) := by
  simp [hasParseEvent]

theorem transportRequests_beforeMap (ns : List Nat) :
    transportRequests (ns.map Event.beforeHook) = [] := by
  induction ns with
  | nil => rfl
  | cons n ns ih => simp [transportRequests]

theorem afterHookIdxs_beforeMap (ns : List Nat) :
    afterHookIdxs (ns.map Event.beforeHook) = [] := by
  induction ns with
  | nil => rfl
  | cons n ns ih => simp [afterHookIdxs]

theorem hasParseEvent_beforeMap (ns : List Nat) :
    hasParseEvent (ns.map Event.beforeHook) = false := by
  induction ns with
  | nil => rfl
  | cons n ns ih => simp [hasParseEvent]

theorem transportRequests_afterMap (ns : List Nat) :
    transportRequests (ns.map Event.afterHook) = [] := by
  induction ns with
  | nil => rfl
  | cons n ns ih => simp [transportRequests]

/-- The Before chain touches no collaborator other than the Before
callbacks: its trace is a list of `beforeHook` events. -/
theorem runBeforeAux_events_shape (l : List Hook) (i : Nat) (ctx : Ctx) (req : Request) :
    ∃ ns : List Nat, (runBeforeAux l i ctx req).events = ns.map Event.beforeHook := by
  induction l generalizing i ctx with
  | nil => exact ⟨[], rfl⟩
  | cons h hs ih =>
    simp only [runBeforeAux]
    rcases hb : h.before ctx req with ⟨ctx2, e⟩
    cases e with
    | none =>
      obtain ⟨ns, hns⟩ := ih (i + 1) ctx2
      exact ⟨i :: ns, by simp [hns]⟩
    | some e => exact ⟨[i], rfl⟩

/-- The After chain's trace is a list of `afterHook` events. -/
theorem runAfterAux_events_shape (code : Int) (hd : Option Header) (bd : Option String)
    (er : Option Error) (l : List Hook) (i : Nat) (ctx : Ctx) :
    ∃ ns : List Nat, (runAfterAux code hd bd er l i ctx).events = ns.map Event.afterHook := by
  induction l generalizing i ctx with
  | nil => exact ⟨[], rfl⟩
  | cons h hs ih =>
    simp only [runAfterAux]
    rcases hb : h.after ctx code hd bd er with ⟨ctx2, e⟩
    cases e with
    | none =>
      obtain ⟨ns, hns⟩ := ih (i + 1) ctx2
      exact ⟨i :: ns, by simp [hns]⟩
    | some e => exact ⟨[i], rfl⟩

/-- Computation rule for the Before chain on an appended hook list whose
first half completes without error. -/
theorem runBeforeAux_append_ok (l1 l2 : List Hook) (i : Nat) (ctx : Ctx) (req : Request)
    (h : (runBeforeAux l1 i ctx req).err = none) :
    runBeforeAux (l1 ++ l2) i ctx req =
      ⟨(runBeforeAux l2 (i + l1.length) (runBeforeAux l1 i ctx req).ctx req).ctx,
       (runBeforeAux l2 (i + l1.length) (runBeforeAux l1 i ctx req).ctx req).err,
       (runBeforeAux l1 i ctx req).events ++
         (runBeforeAux l2 (i + l1.length) (runBeforeAux l1 i ctx req).ctx req).events⟩ := by
  induction l1 generalizing i ctx with
  | nil => simp [runBeforeAux]
  | cons hk hs ih =>
    simp only [List.cons_append, List.append_eq, runBeforeAux] at h ⊢
    rcases hb : hk.before ctx req with ⟨ctx2, e⟩
    rw [hb] at h
    cases e with
    | some e => simp at h
    | none =>
      dsimp only at h ⊢
      rw [ih (i + 1) ctx2 h]
      simp only [List.length_cons, List.cons_append]
      rw [show i + (hs.length + 1) = i + 1 + hs.length by omega]

/-- Computation rule for the After chain on an appended hook list whose
first half completes without error. -/
theorem runAfterAux_append_ok (code : Int) (hd : Option Header) (bd : Option String)
    (er : Option Error) (l1 l2 : List Hook) (i : Nat) (ctx : Ctx)
    (h : (runAfterAux code hd bd er l1 i ctx).err = none) :
    runAfterAux code hd bd er (l1 ++ l2) i ctx =
      ⟨(runAfterAux code hd bd er l2 (i + l1.length) (runAfterAux code hd bd er l1 i ctx).ctx).ctx,
       (runAfterAux code hd bd er l2 (i + l1.length) (runAfterAux code hd bd er l1 i ctx).ctx).err,
       (runAfterAux code hd bd er l1 i ctx).events ++
         (runAfterAux code hd bd er l2 (i + l1.length)
           (runAfterAux code hd bd er l1 i ctx).ctx).events⟩ := by
  induction l1 generalizing i ctx with
  | nil => simp [runAfterAux]
  | cons hk hs ih =>
    simp only [List.cons_append, List.append_eq, runAfterAux] at h ⊢
    rcases hb : hk.after ctx code hd bd er with ⟨ctx2, e⟩
    rw [hb] at h
    cases e with
    | some e => simp at h
    | none =>
      dsimp only at h ⊢
      rw [ih (i + 1) ctx2 h]
      simp only [List.length_cons, List.cons_append]
      rw [show i + (hs.length + 1) = i + 1 + hs.length by omega]

/-- When the Before chain completes without error, its trace is exactly
the `beforeHook` events of all hooks, in registration order. -/
theorem runBeforeAux_ok_events (l : List Hook) (i : Nat) (ctx : Ctx) (req : Request)
    (h : (runBeforeAux l i ctx req).err = none) :
    (runBeforeAux l i ctx req).events =
      (List.range l.length).map fun j => Event.beforeHook (i + j) := by
  induction l generalizing i ctx with
  | nil => rfl
  | cons hk hs ih =>
    simp only [runBeforeAux] at h ⊢
    rcases hb : hk.before ctx req with ⟨ctx2, e⟩
    rw [hb] at h
    cases e with
    | some e => simp at h
    | none =>
      dsimp only at h ⊢
      have ihe := ih (i + 1) ctx2 h
      simp only [ihe, List.length_cons, List.range_succ_eq_map, List.map_cons,
        List.map_map, Nat.add_zero]
      refine congrArg₂ List.cons rfl (List.map_congr_left fun a _ => ?_)
      simp only [Function.comp_apply]
      congr 1
      omega

/-- Behavior of `do` when the Before chain aborts: the abort error is returned and
nothing further runs. -/
theorem do_before_err (env : Env) (ctx : Ctx) (req : Request) (ctx1 : Ctx) (e : Error)
    (evs : List Event)
    (h : runBeforeAux env.hooks 0 ctx req = ⟨ctx1, some e, evs⟩) :
    do_ env ctx req = (⟨-1, none, none, some e⟩, evs) := by
  simp [do_, h]

/-- Behavior of `do` when the transport call fails: the transport error is returned
and the trace stops at the transport call. -/
theorem do_transport_err (env : Env) (ctx : Ctx) (req : Request) (ctx1 : Ctx)
    (evs : List Event) (resp : Option Response) (e : Error)
    (hb : runBeforeAux env.hooks 0 ctx req = ⟨ctx1, none, evs⟩)
    (ht : env.transport req = (resp, some e)) :
    do_ env ctx req = (⟨-1, none, none, some e⟩, evs ++ [Event.transportCall req]) := by
  simp [do_, hb, ht]

/-- When the After chain completes without error, its trace is exactly
the `afterHook` events of all hooks, in registration order. -/
theorem runAfterAux_ok_events (code : Int) (hd : Option Header) (bd : Option String)
    (er : Option Error) (l : List Hook) (i : Nat) (ctx : Ctx)
    (h : (runAfterAux code hd bd er l i ctx).err = none) :
    (runAfterAux code hd bd er l i ctx).events =
      (List.range l.length).map fun j => Event.afterHook (i + j) := by
  induction l generalizing i ctx with
  | nil => rfl
  | cons hk hs ih =>
    simp only [runAfterAux] at h ⊢
    rcases hb : hk.after ctx code hd bd er with ⟨ctx2, e⟩
    rw [hb] at h
    cases e with
    | some e => simp at h
    | none =>
      dsimp only at h ⊢
      have ihe := ih (i + 1) ctx2 h
      simp only [ihe, List.length_cons, List.range_succ_eq_map, List.map_cons,
        List.map_map, Nat.add_zero]
      refine congrArg₂ List.cons rfl (List.map_congr_left fun a _ => ?_)
      simp only [Function.comp_apply]
      congr 1
      omega


/-- C2: for every call and every registered hook sequence, if some Before
hook returns a non-nil error, then no later Before hook runs, the
transport client is never invoked, no After hook runs, and the call
returns `(-1, nil, nil, that hook's error)`.  The trace is exactly the
Before events of the hooks up to and including the aborting one. -/
theorem claimC2_before_hook_error_aborts (env : Env) (ctx : Ctx) (req : Request)
    (pre : List Hook) (hk : Hook) (post : List Hook)
    (hhooks : env.hooks = pre ++ hk :: post)
    (ctx1 : Ctx) (evsPre : List Event)
    (hpre : runBeforeAux pre 0 ctx req = ⟨ctx1, none, evsPre⟩)
    (ctx2 : Ctx) (e : Error)
    (habort : hk.before ctx1 req = (ctx2, some e)) :
    do_ env ctx req =
      (⟨-1, none, none, some e⟩, (List.range (pre.length + 1)).map Event.beforeHook) ∧
    transportRequests ((List.range (pre.length + 1)).map Event.beforeHook) = [] ∧
    afterHookIdxs ((List.range (pre.length + 1)).map Event.beforeHook) = [] := by
  refine ⟨?_, transportRequests_beforeMap _, afterHookIdxs_beforeMap _⟩
  have hevs : evsPre = (List.range pre.length).map Event.beforeHook := by
    have h0 := runBeforeAux_ok_events pre 0 ctx req (by rw [hpre])
    rw [hpre] at h0
    simpa using h0
  have hfull : runBeforeAux env.hooks 0 ctx req =
      ⟨ctx2, some e, evsPre ++ [Event.beforeHook pre.length]⟩ := by
    rw [hhooks, runBeforeAux_append_ok pre (hk :: post) 0 ctx req (by rw [hpre]), hpre]
    dsimp only
    simp [runBeforeAux, habort]
  rw [do_before_err env ctx req ctx2 e _ hfull, hevs]
  simp [List.range_succ]

/-- Witness for C2 at a concrete input: a single registered hook whose
Before callback fails; the call returns its error, and the trace has no
transport call and no After hook. -/
theorem claimC2_witness :
    exEnvBeforeFail.hooks = [] ++ failBeforeHook :: [] ∧
    runBeforeAux [] 0 [] exReq = ⟨[], none, []⟩ ∧
    failBeforeHook.before [] exReq = ([], some "before-failure") ∧
    (do_ exEnvBeforeFail [] exReq =
        (⟨-1, none, none, some "before-failure"⟩,
          (List.range (List.length ([] : List Hook) + 1)).map Event.beforeHook) ∧
      transportRequests
        ((List.range (List.length ([] : List Hook) + 1)).map Event.beforeHook) = [] ∧
      afterHookIdxs
        ((List.range (List.length ([] : List Hook) + 1)).map Event.beforeHook) = []) :=
  ⟨rfl, rfl, rfl,
    claimC2_before_hook_error_aborts exEnvBeforeFail [] exReq [] failBeforeHook []
      rfl [] [] rfl [] "before-failure" rfl⟩

/-- C1 (amended): when the transport client's `Do` returns a non-nil
error, the Response Parser is skipped and the After hooks are also
skipped — `do` returns `(-1, nil, nil, transportError)` at once; the
trace ends at the transport call with no parse event and no After hook. -/
theorem claimC1_amended_transport_error_skips_after_hooks (env : Env) (ctx : Ctx)
    (req : Request) (resp : Option Response) (e : Error) (ctx1 : Ctx) (bevs : List Event)
    (hb : runBeforeAux env.hooks 0 ctx req = ⟨ctx1, none, bevs⟩)
    (ht : env.transport req = (resp, some e)) :
    do_ env ctx req = (⟨-1, none, none, some e⟩, bevs ++ [Event.transportCall req]) ∧
    hasParseEvent (bevs ++ [Event.transportCall req]) = false ∧
    afterHookIdxs (bevs ++ [Event.transportCall req]) = [] := by
  have hevs : bevs = (List.range env.hooks.length).map Event.beforeHook := by
    have h0 := runBeforeAux_ok_events env.hooks 0 ctx req (by rw [hb])
    rw [hb] at h0
    simpa using h0
  refine ⟨do_transport_err env ctx req ctx1 bevs resp e hb ht, ?_, ?_⟩
  · rw [hevs, hasParseEvent_append, hasParseEvent_beforeMap]
    rfl
  · rw [hevs, afterHookIdxs_append, afterHookIdxs_beforeMap]
    rfl

/-- Witness for the amended C1 at a concrete input: one well-behaved
hook, failing transport. -/
theorem claimC1_amended_witness :
    runBeforeAux exEnvTransportFail.hooks 0 [] exReq = ⟨[], none, [Event.beforeHook 0]⟩ ∧
    exEnvTransportFail.transport exReq = (none, some "connection refused") ∧
    (do_ exEnvTransportFail [] exReq =
        (⟨-1, none, none, some "connection refused"⟩,
          [Event.beforeHook 0] ++ [Event.transportCall exReq]) ∧
      hasParseEvent ([Event.beforeHook 0] ++ [Event.transportCall exReq]) = false ∧
      afterHookIdxs ([Event.beforeHook 0] ++ [Event.transportCall exReq]) = []) :=
  ⟨rfl, rfl,
    claimC1_amended_transport_error_skips_after_hooks exEnvTransportFail [] exReq
      none "connection refused" [] [Event.beforeHook 0] rfl rfl⟩

/-- C1 as stated is false on the code: with one registered hook and a
transport error, the call returns the transport error but invokes no
After hook at all, although the claim requires every registered After
hook to be invoked (with the transport error) before the call returns. -/
theorem claimC1_counterexample :
    exEnvTransportFail.hooks.length = 1 ∧
    exEnvTransportFail.transport exReq = (none, some "connection refused") ∧
    do_ exEnvTransportFail [] exReq =
      (⟨-1, none, none, some "connection refused"⟩,
        [Event.beforeHook 0, Event.transportCall exReq]) ∧
    afterHookIdxs (do_ exEnvTransportFail [] exReq).2 = [] :=
  ⟨rfl, rfl, rfl, rfl⟩

/-- C3: for every call whose transport invocation completes, if some
After hook returns a non-nil error, the remaining After hooks are skipped
and the call returns `(-1, nil, nil, that hook's error)`, discarding the
parsed status code, headers and body.  The trace shows exactly the After
hooks up to and including the aborting one. -/
theorem claimC3_after_hook_error_overrides (env : Env) (ctx : Ctx) (req : Request)
    (resp : Option Response) (ctx1 : Ctx) (bevs : List Event)
    (hb : runBeforeAux env.hooks 0 ctx req = ⟨ctx1, none, bevs⟩)
    (ht : env.transport req = (resp, none))
    (pre : List Hook) (hk : Hook) (post : List Hook)
    (hhooks : env.hooks = pre ++ hk :: post)
    (ctxA : Ctx) (aEvs : List Event)
    (hpre : runAfterAux (doParseResponse resp none).code (doParseResponse resp none).header
        (doParseResponse resp none).body (doParseResponse resp none).err pre 0 ctx1 =
      ⟨ctxA, none, aEvs⟩)
    (ctxB : Ctx) (e : Error)
    (habort : hk.after ctxA (doParseResponse resp none).code
        (doParseResponse resp none).header (doParseResponse resp none).body
        (doParseResponse resp none).err = (ctxB, some e)) :
    do_ env ctx req =
      (⟨-1, none, none, some e⟩,
        bevs ++ [Event.transportCall req, Event.parseResponse] ++
          (aEvs ++ [Event.afterHook pre.length])) ∧
    aEvs = (List.range pre.length).map Event.afterHook := by
  have haevs : aEvs = (List.range pre.length).map Event.afterHook := by
    have h0 := runAfterAux_ok_events (doParseResponse resp none).code
      (doParseResponse resp none).header (doParseResponse resp none).body
      (doParseResponse resp none).err pre 0 ctx1 (by rw [hpre])
    rw [hpre] at h0
    simpa using h0
  refine ⟨?_, haevs⟩
  have hafull : runAfterAux (doParseResponse resp none).code (doParseResponse resp none).header
      (doParseResponse resp none).body (doParseResponse resp none).err env.hooks 0 ctx1 =
      ⟨ctxB, some e, aEvs ++ [Event.afterHook pre.length]⟩ := by
    rw [hhooks, runAfterAux_append_ok _ _ _ _ pre (hk :: post) 0 ctx1 (by rw [hpre]), hpre]
    dsimp only
    simp [runAfterAux, habort]
  simp [do_, hb, ht, hafull]

/-- Witness for C3 at a concrete input: a single registered hook whose
After callback fails after a successful 200 transport exchange; the
parsed response is discarded in favor of `(-1, nil, nil, hook error)`. -/
theorem claimC3_witness :
    runBeforeAux exEnvAfterFail.hooks 0 [] exReq = ⟨[], none, [Event.beforeHook 0]⟩ ∧
    exEnvAfterFail.transport exReq = (some resp200, none) ∧
    exEnvAfterFail.hooks = [] ++ failAfterHook :: [] ∧
    (do_ exEnvAfterFail [] exReq =
        (⟨-1, none, none, some "after-failure"⟩,
          [Event.beforeHook 0] ++ [Event.transportCall exReq, Event.parseResponse] ++
            (([] : List Event) ++ [Event.afterHook (List.length ([] : List Hook))])) ∧
      ([] : List Event) = (List.range (List.length ([] : List Hook))).map Event.afterHook) :=
  ⟨rfl, rfl, rfl,
    claimC3_after_hook_error_overrides exEnvAfterFail [] exReq (some resp200) []
      [Event.beforeHook 0] rfl rfl [] failAfterHook [] rfl [] [] rfl [] "after-failure" rfl⟩

end GoHttp

namespace GoHttp

/-- The trace of `do` when the transport call succeeds: Before events,
the transport call, the parse event, then the After-chain events. -/
theorem do_transport_ok_events (env : Env) (ctx : Ctx) (req : Request) (ctx1 : Ctx)
    (evs : List Event) (resp : Option Response)
    (hb : runBeforeAux env.hooks 0 ctx req = ⟨ctx1, none, evs⟩)
    (ht : env.transport req = (resp, none)) :
    (do_ env ctx req).2 =
      evs ++ [Event.transportCall req, Event.parseResponse] ++
        (runAfterAux (doParseResponse resp none).code (doParseResponse resp none).header
          (doParseResponse resp none).body (doParseResponse resp none).err
          env.hooks 0 ctx1).events := by
  rcases haf : runAfterAux (doParseResponse resp none).code (doParseResponse resp none).header
      (doParseResponse resp none).body (doParseResponse resp none).err env.hooks 0 ctx1 with
    ⟨ctxA, eA, evsA⟩
  cases eA <;> simp [do_, hb, ht, haf]

/-- The transport client is invoked at most once per call, and only with
the request `do` was given. -/
theorem do_transportRequests (env : Env) (ctx : Ctx) (req : Request) :
    transportRequests (do_ env ctx req).2 = [] ∨
    transportRequests (do_ env ctx req).2 = [req] := by
  obtain ⟨ns, hns⟩ := runBeforeAux_events_shape env.hooks 0 ctx req
  rcases hout : runBeforeAux env.hooks 0 ctx req with ⟨ctx1, e1, evs1⟩
  rw [hout] at hns
  dsimp only at hns
  cases e1 with
  | some e =>
    rw [do_before_err env ctx req ctx1 e evs1 hout, hns]
    exact Or.inl (transportRequests_beforeMap ns)
  | none =>
    rcases htr : env.transport req with ⟨resp, e2⟩
    cases e2 with
    | some e =>
      rw [do_transport_err env ctx req ctx1 evs1 resp e hout htr]
      right
      rw [hns, transportRequests_append, transportRequests_beforeMap]
      rfl
    | none =>
      obtain ⟨ms, hms⟩ := runAfterAux_events_shape (doParseResponse resp none).code
        (doParseResponse resp none).header (doParseResponse resp none).body
        (doParseResponse resp none).err env.hooks 0 ctx1
      right
      rw [do_transport_ok_events env ctx req ctx1 evs1 resp hout htr, hms, hns,
        transportRequests_append, transportRequests_append,
        transportRequests_beforeMap, transportRequests_afterMap]
      rfl

/-- C4: every received response whose status code is not 200 (the only
success code) parses to `(code, headers, nil, err)` where `err`'s message
embeds the numeric status code and the response body text. -/
theorem claimC4_non200_parse (resp : Response) (h : resp.statusCode ≠ 200) :
    doParseResponse (some resp) none =
      ⟨resp.statusCode, some resp.header, none,
        some ("remote error, url: code " ++ toString resp.statusCode ++
          ", response body: " ++ resp.bodyRead.1)⟩ := by
  simp [doParseResponse, h]

/-- Witness for C4 at the concrete 404 response. -/
theorem claimC4_witness :
    resp404.statusCode ≠ 200 ∧
    doParseResponse (some resp404) none =
      ⟨resp404.statusCode, some resp404.header, none,
        some ("remote error, url: code " ++ toString resp404.statusCode ++
          ", response body: " ++ resp404.bodyRead.1)⟩ :=
  ⟨by decide, claimC4_non200_parse resp404 (by decide)⟩

/-- C5: every received response with status code 200 parses to
`(200, headers, bodyBytes, nil)` when the body reads successfully, and to
`(200, headers, nil, wrapped read error)` when reading fails. -/
theorem claimC5_status200_parse (resp : Response) (h : resp.statusCode = 200) :
    doParseResponse (some resp) none =
      (match resp.bodyRead with
       | (body, none) => ⟨200, some resp.header, some body, none⟩
       | (_, some e) =>
         ⟨200, some resp.header, none,
           some ("Couldn\x27t parse response body, err: " ++ e)⟩) := by
  rcases hbr : resp.bodyRead with ⟨body, oe⟩
  cases oe <;> simp [doParseResponse, h, hbr]

/-- Witness for C5 at the concrete 200 response with readable body. -/
theorem claimC5_witness :
    resp200.statusCode = 200 ∧
    doParseResponse (some resp200) none =
      (match resp200.bodyRead with
       | (body, none) => ⟨200, some resp200.header, some body, none⟩
       | (_, some e) =>
         ⟨200, some resp200.header, none,
           some ("Couldn\x27t parse response body, err: " ++ e)⟩) :=
  ⟨rfl, claimC5_status200_parse resp200 rfl⟩

/-- C6: the URL resolver maps the three golden inputs of the spec exactly
as specified, percent-encoding the query value per RFC 3986. -/
theorem claimC6_resolver_golden_urls :
    resolveUrlWithParameter "http://h:8080" [("msg", "\x7b\"a\":1\x7d")] =
      .ok "http://h:8080?msg=%7B%22a%22%3A1%7D" ∧
    resolveUrlWithParameter "http://h:8080?example=1" [("msg", "\x7b\"a\":1\x7d")] =
      .ok "http://h:8080?example=1&msg=%7B%22a%22%3A1%7D" ∧
    resolveUrlWithParameter "www.example.com" [("msg", "\x7b\"a\":1\x7d")] =
      .ok "www.example.com?msg=%7B%22a%22%3A1%7D" :=
  ⟨rfl, rfl, rfl⟩

/-- C8: for every GET and DELETE call, no request body is attached to the
transport-level request, regardless of the `body` argument's value. -/
theorem claimC8_get_delete_no_body (env : Env) (marshal : AnyVal → String × Option Error)
    (ctx : Ctx) (method : RequestMethodType) (url : String)
    (header : Option (List (String × String))) (parameter : List (String × String))
    (body : AnyVal) (h : method = GET ∨ method = DELETE) :
    ((transportRequests (send env marshal ctx method url header parameter body).2).all
      fun r => r.body == none) = true := by
  simp only [send]
  rcases hres : resolveUrlWithParameter url parameter with e | url2
  · rfl
  · have hbody : (buildRequest marshal method url2 header body).body = none := by
      rcases h with h | h <;> subst h <;> cases header <;> simp [buildRequest]
    rcases do_transportRequests env ctx (buildRequest marshal method url2 header body)
      with h0 | h0 <;> rw [h0]
    · rfl
    · simp [hbody]

/-- Witness for C8: a GET call through a stub transport; the one request
the transport received carries no body. -/
theorem claimC8_witness :
    (GET = GET ∨ GET = DELETE) ∧
    ((transportRequests
        (send exEnvOk exMarshalNull background GET "http://h:8080" none [] AnyVal.nil).2).all
      fun r => r.body == none) = true :=
  ⟨Or.inl rfl,
    claimC8_get_delete_no_body exEnvOk exMarshalNull background GET "http://h:8080"
      none [] AnyVal.nil (Or.inl rfl)⟩

/-- C9: for every POST, PUT or PATCH call the marshalled form of the body
argument is attached as the request payload, and the marshal error is
swallowed: the call's outcome depends on the marshal collaborator only
through the bytes it returns, never through its error (so a failing
marshal that returns empty bytes sends an empty body and the call
proceeds normally). -/
theorem claimC9_post_put_patch_marshal (env : Env)
    (m1 m2 : AnyVal → String × Option Error) (ctx : Ctx) (method : RequestMethodType)
    (url : String) (header : Option (List (String × String)))
    (parameter : List (String × String)) (body : AnyVal)
    (h : method = POST ∨ method = PUT ∨ method = PATCH)
    (hm : (m1 body).1 = (m2 body).1) :
    ((transportRequests (send env m1 ctx method url header parameter body).2).all
      fun r => r.body == some (m1 body).1) = true ∧
    send env m1 ctx method url header parameter body =
      send env m2 ctx method url header parameter body := by
  have hbuild : ∀ url2, buildRequest m1 method url2 header body =
      buildRequest m2 method url2 header body := by
    intro url2
    cases header <;> simp [buildRequest, hm]
  constructor
  · simp only [send]
    rcases hres : resolveUrlWithParameter url parameter with e | url2
    · rfl
    · have hbody : (buildRequest m1 method url2 header body).body = some (m1 body).1 := by
        rcases h with h | h | h <;> subst h <;> cases header <;> simp [buildRequest]
      rcases do_transportRequests env ctx (buildRequest m1 method url2 header body)
        with h0 | h0 <;> rw [h0]
      · rfl
      · simp [hbody]
  · simp only [send]
    rcases hres : resolveUrlWithParameter url parameter with e | url2
    · rfl
    · dsimp only
      rw [hbuild url2]

/-- Witness for C9: a POST through a failing marshal stub that returns
empty bytes; the transport receives an attached empty payload and the
call equals the same call with a non-failing marshal. -/
theorem claimC9_witness :
    (POST = POST ∨ POST = PUT ∨ POST = PATCH) ∧
    (exMarshalFail AnyVal.nil).1 = (exMarshalEmpty AnyVal.nil).1 ∧
    (((transportRequests
          (send exEnvOk exMarshalFail background POST "http://h:8080" none []
            AnyVal.nil).2).all
        fun r => r.body == some (exMarshalFail AnyVal.nil).1) = true ∧
      send exEnvOk exMarshalFail background POST "http://h:8080" none [] AnyVal.nil =
        send exEnvOk exMarshalEmpty background POST "http://h:8080" none [] AnyVal.nil) :=
  ⟨Or.inl rfl, rfl,
    claimC9_post_put_patch_marshal exEnvOk exMarshalFail exMarshalEmpty background POST
      "http://h:8080" none [] AnyVal.nil (Or.inl rfl) rfl⟩

/-- C10: for every public call, a URL-resolution failure returns status
code 0 (not the -1 of the other error paths) with nil headers, nil body
and the parse error, and the empty event trace shows that neither the
hook chain nor the transport client is ever invoked. -/
theorem claimC10_resolve_failure_returns_zero (env : Env)
    (marshal : AnyVal → String × Option Error) (url : String)
    (header : Option (List (String × String))) (parameter : List (String × String))
    (body : AnyVal) (e : Error)
    (h : resolveUrlWithParameter url parameter = .error e) :
    Get env marshal url header parameter = (⟨0, none, none, some e⟩, []) ∧
    Post env marshal url header parameter body = (⟨0, none, none, some e⟩, []) ∧
    Put env marshal url header parameter body = (⟨0, none, none, some e⟩, []) ∧
    Patch env marshal url header parameter body = (⟨0, none, none, some e⟩, []) ∧
    Delete env marshal url header parameter = (⟨0, none, none, some e⟩, []) := by
  refine ⟨?_, ?_, ?_, ?_, ?_⟩ <;>
    simp [Get, GetWithContext, Post, PostWithContext, Put, PutWithContext,
      Patch, PatchWithContext, Delete, DeleteWithContext, send, h]

/-- Witness for C10 at the concrete unparsable URL `%`. -/
theorem claimC10_witness :
    resolveUrlWithParameter "%" [] =
      .error "parse \"%\": invalid URL escape \"%\"" ∧
    (Get exEnvOk exMarshalNull "%" none [] =
        (⟨0, none, none, some "parse \"%\": invalid URL escape \"%\""⟩, []) ∧
      Post exEnvOk exMarshalNull "%" none [] AnyVal.nil =
        (⟨0, none, none, some "parse \"%\": invalid URL escape \"%\""⟩, []) ∧
      Put exEnvOk exMarshalNull "%" none [] AnyVal.nil =
        (⟨0, none, none, some "parse \"%\": invalid URL escape \"%\""⟩, []) ∧
      Patch exEnvOk exMarshalNull "%" none [] AnyVal.nil =
        (⟨0, none, none, some "parse \"%\": invalid URL escape \"%\""⟩, []) ∧
      Delete exEnvOk exMarshalNull "%" none [] =
        (⟨0, none, none, some "parse \"%\": invalid URL escape \"%\""⟩, [])) :=
  ⟨rfl,
    claimC10_resolve_failure_returns_zero exEnvOk exMarshalNull "%" none [] AnyVal.nil
      "parse \"%\": invalid URL escape \"%\"" rfl⟩

end GoHttp

namespace NetUrl

theorem Values.get_set_self (q : Values) (k v : String) : (q.set k v).get k = [v] := by
  induction q with
  | nil => simp [Values.set, Values.get]
  | cons p rest ih =>
    rcases p with ⟨k1, vs⟩
    by_cases h : k1 = k <;> simp [Values.set, Values.get, h, ih]

theorem Values.get_set_ne (q : Values) (k k2 v : String) (h : k2 ≠ k) :
    (q.set k v).get k2 = q.get k2 := by
  induction q with
  | nil => simp [Values.set, Values.get, Ne.symm h]
  | cons p rest ih =>
    rcases p with ⟨k1, vs⟩
    by_cases h1 : k1 = k
    · subst h1
      simp [Values.set, Values.get, Ne.symm h]
    · by_cases h2 : k1 = k2 <;> simp [Values.set, Values.get, h, h1, h2, ih]

theorem get_foldl_set_not_mem (params : List (String × String)) (q : Values) (k : String)
    (h : k ∉ params.map Prod.fst) :
    (params.foldl (fun q kv => q.set kv.1 kv.2) q).get k = q.get k := by
  induction params generalizing q with
  | nil => rfl
  | cons kv rest ih =>
    simp only [List.map_cons, List.mem_cons] at h
    push_neg at h
    simp only [List.foldl_cons]
    rw [ih _ h.2, Values.get_set_ne _ _ _ _ h.1]

theorem get_foldl_set_mem (params : List (String × String)) (q : Values)
    (kv : String × String) (hmem : kv ∈ params) (hnd : (params.map Prod.fst).Nodup) :
    (params.foldl (fun q kv2 => q.set kv2.1 kv2.2) q).get kv.1 = [kv.2] := by
  induction params generalizing q with
  | nil => cases hmem
  | cons kv0 rest ih =>
    simp only [List.map_cons, List.nodup_cons] at hnd
    simp only [List.foldl_cons]
    rcases List.mem_cons.mp hmem with heq | hmem2
    · subst heq
      rw [get_foldl_set_not_mem rest _ _ hnd.1, Values.get_set_self]
    · exact ih _ hmem2 hnd.2

theorem Values.keys_set (q : Values) (k v : String) :
    (q.set k v).keys = if k ∈ q.keys then q.keys else q.keys ++ [k] := by
  induction q with
  | nil => simp [Values.set, Values.keys]
  | cons p rest ih =>
    rcases p with ⟨k1, vs⟩
    by_cases h : k1 = k
    · subst h
      simp [Values.set, Values.keys]
    · have hks : ¬ (k = k1) := fun he => h he.symm
      simp only [Values.set, if_neg h]
      simp only [Values.keys, List.map_cons] at ih ⊢
      rw [ih]
      by_cases h2 : k ∈ List.map Prod.fst rest <;> simp [h2, hks]

theorem Values.keys_set_nodup (q : Values) (k v : String) (h : q.keys.Nodup) :
    (q.set k v).keys.Nodup := by
  rw [Values.keys_set]
  by_cases hmem : k ∈ q.keys
  · simpa [hmem] using h
  · simp only [hmem, if_false]
    rw [List.nodup_append]
    exact ⟨h, List.nodup_singleton _, by
      intro a ha hak
      simp only [List.mem_singleton] at hak
      exact hmem (hak ▸ ha)⟩

theorem keys_foldl_set_nodup (params : List (String × String)) (q : Values)
    (h : q.keys.Nodup) :
    (params.foldl (fun q kv => q.set kv.1 kv.2) q).keys.Nodup := by
  induction params generalizing q with
  | nil => exact h
  | cons kv rest ih => exact ih _ (Values.keys_set_nodup _ _ _ h)

theorem Values.keys_add (q : Values) (k v : String) :
    (q.add k v).keys = if k ∈ q.keys then q.keys else q.keys ++ [k] := by
  induction q with
  | nil => simp [Values.add, Values.keys]
  | cons p rest ih =>
    rcases p with ⟨k1, vs⟩
    by_cases h : k1 = k
    · subst h
      simp [Values.add, Values.keys]
    · have hks : ¬ (k = k1) := fun he => h he.symm
      simp only [Values.add, if_neg h]
      simp only [Values.keys, List.map_cons] at ih ⊢
      rw [ih]
      by_cases h2 : k ∈ List.map Prod.fst rest <;> simp [h2, hks]

theorem Values.keys_add_nodup (q : Values) (k v : String) (h : q.keys.Nodup) :
    (q.add k v).keys.Nodup := by
  rw [Values.keys_add]
  by_cases hmem : k ∈ q.keys
  · simpa [hmem] using h
  · simp only [hmem, if_false]
    rw [List.nodup_append]
    exact ⟨h, List.nodup_singleton _, by
      intro a ha hak
      simp only [List.mem_singleton] at hak
      exact hmem (hak ▸ ha)⟩

theorem parseQueryChunk_keys_nodup (m : Values) (chunk : String) (h : m.keys.Nodup) :
    (parseQueryChunk m chunk).keys.Nodup := by
  unfold parseQueryChunk
  repeat' split
  all_goals first
    | exact h
    | exact Values.keys_add_nodup _ _ _ h

theorem parseQueryList_keys_nodup (cs : List String) (m : Values) (h : m.keys.Nodup) :
    (parseQueryList m cs).keys.Nodup := by
  induction cs generalizing m with
  | nil => exact h
  | cons c rest ih => exact ih _ (parseQueryChunk_keys_nodup _ _ h)

theorem parseQueryValues_keys_nodup (s : String) : (parseQueryValues s).keys.Nodup :=
  parseQueryList_keys_nodup _ [] List.nodup_nil

theorem GoURL.query_keys_nodup (u : GoURL) : u.query.keys.Nodup :=
  parseQueryValues_keys_nodup _

theorem Values.mem_keys_of_get_ne_nil (q : Values) (k : String) (h : q.get k ≠ []) :
    k ∈ q.keys := by
  induction q with
  | nil => simp [Values.get] at h
  | cons p rest ih =>
    rcases p with ⟨k1, vs⟩
    simp only [Values.keys, List.map_cons, List.mem_cons]
    by_cases h1 : k1 = k
    · exact Or.inl h1.symm
    · simp only [Values.get, h1, if_false] at h
      exact Or.inr (by simpa [Values.keys] using ih h)

theorem countP_insertSorted (p : String → Bool) (a : String) (l : List String) :
    (insertSorted a l).countP p = l.countP p + (if p a then 1 else 0) := by
  induction l with
  | nil => simp [insertSorted, List.countP_cons]
  | cons b bs ih =>
    simp only [insertSorted]
    split
    · simp only [List.countP_cons, ih]
      omega
    · simp only [List.countP_cons]

theorem countP_sortStrings (p : String → Bool) (l : List String) :
    (sortStrings l).countP p = l.countP p := by
  induction l with
  | nil => rfl
  | cons a as ih => simp [sortStrings, countP_insertSorted, ih, List.countP_cons]

theorem length_filter_map_const (k k0 : String) (vs : List String) :
    ((vs.map fun v => (k, v)).filter fun pr => pr.1 == k0).length =
      if k = k0 then vs.length else 0 := by
  induction vs with
  | nil => simp
  | cons v vs ih =>
    by_cases h : k = k0
    all_goals simp [h] at ih ⊢
    all_goals simpa using ih

theorem length_filter_flatMapBlocks (q : Values) (k0 : String) (ks : List String) :
    ((ks.flatMap fun k => (q.get k).map fun v => (k, v)).filter
        fun pr => pr.1 == k0).length =
      (ks.countP fun k => k == k0) * (q.get k0).length := by
  induction ks with
  | nil => simp
  | cons k ks ih =>
    simp only [List.flatMap_cons, List.filter_append, List.length_append, ih,
      List.countP_cons, length_filter_map_const]
    by_cases h : k = k0
    all_goals simp [h]
    all_goals ring

theorem encodePairs_count_param (q : Values) (k0 : String) (hnd : q.keys.Nodup)
    (hmem : k0 ∈ q.keys) (hlen : (q.get k0).length = 1) :
    (q.encodePairs.filter fun pr => pr.1 == k0).length = 1 := by
  unfold Values.encodePairs
  rw [length_filter_flatMapBlocks, countP_sortStrings]
  have hc : (q.keys.countP fun k => k == k0) = 1 := by
    have h1 := List.count_eq_one_of_mem hnd hmem
    simpa [List.count] using h1
  rw [hc, hlen]

/-- C7: for every URL and parameter map with distinct keys, each
parameter key is set (not appended) into the query values — its final
value slice is exactly the one given, it appears exactly once among the
encoded `key=value` pairs — while query keys not in the parameter map
keep their original values. -/
theorem claimC7_parameters_overwrite (u : GoURL) (params : List (String × String))
    (hnd : (params.map Prod.fst).Nodup) :
    (params.all fun kv =>
      (params.foldl (fun q kv2 => q.set kv2.1 kv2.2) u.query).get kv.1 == [kv.2]) = true ∧
    (u.query.keys.all fun k =>
      (params.map Prod.fst).contains k ||
        ((params.foldl (fun q kv2 => q.set kv2.1 kv2.2) u.query).get k ==
          u.query.get k)) = true ∧
    (params.all fun kv =>
      ((params.foldl (fun q kv2 => q.set kv2.1 kv2.2) u.query).encodePairs.filter
          fun pr => pr.1 == kv.1).length == 1) = true := by
  refine ⟨?_, ?_, ?_⟩
  · rw [List.all_eq_true]
    intro kv hkv
    simp [get_foldl_set_mem params u.query kv hkv hnd]
  · rw [List.all_eq_true]
    intro k hk
    by_cases hmem : k ∈ params.map Prod.fst
    · have hc : (params.map Prod.fst).contains k = true := by
        simpa [List.contains] using List.elem_iff.mpr hmem
      rw [hc, Bool.true_or]
    · simp [get_foldl_set_not_mem params u.query k hmem]
  · rw [List.all_eq_true]
    intro kv hkv
    have h1 := get_foldl_set_mem params u.query kv hkv hnd
    have hlen : ((params.foldl (fun q kv2 => q.set kv2.1 kv2.2) u.query).get kv.1).length = 1 := by
      rw [h1]
      rfl
    have hin : kv.1 ∈ (params.foldl (fun q kv2 => q.set kv2.1 kv2.2) u.query).keys :=
      Values.mem_keys_of_get_ne_nil _ _ (by rw [h1]; simp)
    have hnodup : (params.foldl (fun q kv2 => q.set kv2.1 kv2.2) u.query).keys.Nodup :=
      keys_foldl_set_nodup params u.query (GoURL.query_keys_nodup u)
    simp [encodePairs_count_param _ _ hnodup hin hlen]

/-- Witness for C7 at a concrete URL with query `a=1&b=2` and parameters
that overwrite `a` and add `c`. -/
theorem claimC7_witness :
    (([("a", "9"), ("c", "3")].map Prod.fst).Nodup) ∧
    (([("a", "9"), ("c", "3")].all fun kv =>
      ([("a", "9"), ("c", "3")].foldl (fun q kv2 => q.set kv2.1 kv2.2)
        ({ rawQuery := "a=1&b=2" } : GoURL).query).get kv.1 == [kv.2]) = true ∧
    (({ rawQuery := "a=1&b=2" } : GoURL).query.keys.all fun k =>
      ([("a", "9"), ("c", "3")].map Prod.fst).contains k ||
        (([("a", "9"), ("c", "3")].foldl (fun q kv2 => q.set kv2.1 kv2.2)
          ({ rawQuery := "a=1&b=2" } : GoURL).query).get k ==
            ({ rawQuery := "a=1&b=2" } : GoURL).query.get k)) = true ∧
    (([("a", "9"), ("c", "3")].all fun kv =>
      (([("a", "9"), ("c", "3")].foldl (fun q kv2 => q.set kv2.1 kv2.2)
        ({ rawQuery := "a=1&b=2" } : GoURL).query).encodePairs.filter
          fun pr => pr.1 == kv.1).length == 1) = true)) :=
  ⟨by decide,
    claimC7_parameters_overwrite { rawQuery := "a=1&b=2" } [("a", "9"), ("c", "3")]
      (by decide)⟩

end NetUrl
